import Mathlib

/-!
Verification of the adversarial-patch attack (`AdversarialPatchNumpy`,
src/art/attacks/evasion/adversarial_patch/adversarial_patch_numpy.py) and the
DeepZ certifier (`PytorchDeepZ` / `ConvertedModel`,
src/art/estimators/certification/deep_z/pytorch.py).

The Python source is shallowly embedded: numpy arrays are modelled at the
granularity each property needs (entry functions with explicit dimensions, or
pure shape arithmetic), Python floats are modelled as rationals, randomness is
made explicit by passing the unit-interval draws of `random.uniform` as
arguments, and failure (KeyError, numpy broadcast errors) is modelled with
`Option`/`Except`.
-/

namespace ArtSpec

/-! ## Basic numpy / python primitives -/

/-- `random.uniform a b` = `a + (b - a) * u` where `u` is the underlying draw of
`random.random()` in `[0, 1]`. -/
def uniform (a b u : ℚ) : ℚ := a + (b - a) * u

/-- `np.clip(v, lo, hi)` = `minimum(maximum(v, lo), hi)` on scalars. -/
def npClip (lo hi v : ℚ) : ℚ := min (max v lo) hi

/-- Round half to even (the rounding of Python `round` and `np.round`),
as used by `int(np.round(...))` in `_scale` and by `scipy.ndimage.zoom`
for its output shape. -/
def roundHalfEven (q : ℚ) : ℤ :=
  let f : ℤ := ⌊q⌋
  let r : ℚ := q - f
  if r < 1/2 then f
  else if 1/2 < r then f + 1
  else if f % 2 = 0 then f else f + 1

/-- Length of the Python slice `xs[start:stop]` of a sequence of length
`len`: negative endpoints count from the end, endpoints are clamped into
`[0, len]`, and an empty slice has length 0. -/
def pySliceLen (len : ℕ) (start stop : ℤ) : ℕ :=
  let norm : ℤ → ℤ := fun a => if a < 0 then max 0 (len + a) else min a len
  (norm stop - norm start).toNat

theorem uniform_mem (a b u : ℚ) (hab : a ≤ b) (h0 : 0 ≤ u) (h1 : u ≤ 1) :
    a ≤ uniform a b u ∧ uniform a b u ≤ b := by
  unfold uniform
  constructor
  · nlinarith
  · nlinarith

theorem npClip_mem (lo hi v : ℚ) (h : lo ≤ hi) :
    lo ≤ npClip lo hi v ∧ npClip lo hi v ≤ hi := by
  unfold npClip
  constructor
  · exact le_min (le_max_right v lo) h
  · exact min_le_right _ _

/-! ## Transformation records (`_random_transformation`, lines 339-369)

A transformation record is the Python dict built by
`_random_transformation`; its values are either numbers or the
`(0, 0, 0)` triple stored under key `"shift"`. -/

/-- A value stored in the transformation dict. -/
inductive TVal where
  | num (q : ℚ)
  | triple (a b c : ℤ)
  deriving DecidableEq

/-- Result of `_random_transformation`: the transformed patch and mask are
abstracted away (they are produced by scipy interpolation); we keep the drawn
angle, the scale, the applied shift (``(0, 0)`` when the shift branch is not
taken) and the transformation record. -/
structure RTResult where
  angle : ℚ
  scale : ℚ
  shiftH : ℚ
  shiftW : ℚ
  record : List (String × TVal)

/-- Embedding of `AdversarialPatchNumpy._random_transformation`
(adversarial_patch_numpy.py lines 339-369).  `scaleOverride` is the `scale`
argument (`None` in training, fixed in `apply_patch`); `u1 u2 u3 u4` are the
unit draws behind the successive `random.uniform` calls; `inputH inputW` are
`estimator.input_shape[i_h] / [i_w]` and `patchH patchW` are
`patch_shape[i_h] / [i_w]`. -/
def random_transformation (rotationMax scaleMin scaleMax : ℚ)
    (inputH inputW patchH patchW : ℕ) (scaleOverride : Option ℚ)
    (u1 u2 u3 u4 : ℚ) : RTResult :=
  -- rotate: angle = random.uniform(-self.rotation_max, self.rotation_max)
  let angle := uniform (-rotationMax) rotationMax u1
  -- scale: if scale is None: scale = random.uniform(self.scale_min, self.scale_max)
  let scale := match scaleOverride with
    | some s => s
    | none => uniform scaleMin scaleMax u2
  -- shift_max_h = (input_shape[i_h] - patch_shape[i_h] * scale) / 2.0
  let shiftMaxH := ((inputH : ℚ) - (patchH : ℚ) * scale) / 2
  let shiftMaxW := ((inputW : ℚ) - (patchW : ℚ) * scale) / 2
  if 0 < shiftMaxH ∧ 0 < shiftMaxW then
    let shiftH := uniform (-shiftMaxH) shiftMaxH u3
    let shiftW := uniform (-shiftMaxW) shiftMaxW u4
    -- transformation["shift_1"] = shift_1 ; transformation["shift_2"] = shift_2
    { angle := angle, scale := scale, shiftH := shiftH, shiftW := shiftW,
      record := [("rotate", TVal.num angle), ("scale", TVal.num scale),
                 ("shift_1", TVal.num shiftH), ("shift_2", TVal.num shiftW)] }
  else
    -- transformation["shift"] = (0, 0, 0) and the patch is not shifted
    { angle := angle, scale := scale, shiftH := 0, shiftW := 0,
      record := [("rotate", TVal.num angle), ("scale", TVal.num scale),
                 ("shift", TVal.triple 0 0 0)] }

/-- Read a numeric entry of the record; `none` models a Python `KeyError`
(or a non-numeric value where a number is expected). -/
def recordNum (t : List (String × TVal)) (key : String) : Option ℚ :=
  match t.lookup key with
  | some (TVal.num q) => some q
  | _ => none

/-- Embedding of `AdversarialPatchNumpy._reverse_transformation`
(adversarial_patch_numpy.py lines 371-386).  The tensor operations are
abstracted: what matters here is which parameters the method reads from the
record and in which order it applies the inverses.  It returns the parameter
list of the inverse chain — `(-shift_h, -shift_w)` for the un-shift, `1/scale`
for the un-scale, `-angle` for the un-rotate — or `none` when a dict access
raises `KeyError`. -/
def reverse_transformation (t : List (String × TVal)) :
    Option (ℚ × ℚ × ℚ × ℚ) := do
  -- shift_h = transformation["shift_h"] ; shift_w = transformation["shift_w"]
  let shiftH ← recordNum t "shift_h"
  let shiftW ← recordNum t "shift_w"
  -- scale = transformation["scale"]
  let scale ← recordNum t "scale"
  -- angle = transformation["rotate"]
  let angle ← recordNum t "rotate"
  pure (-shiftH, -shiftW, 1 / scale, -angle)

/-- C1: every record produced by `_random_transformation` lacks the keys
`"shift_h"` / `"shift_w"` that `_reverse_transformation` reads, so the
inversion raises `KeyError` (returns `none`) on every sampled record. -/
theorem reverse_transformation_keyerror (rotationMax scaleMin scaleMax : ℚ)
    (inputH inputW patchH patchW : ℕ) (scaleOverride : Option ℚ)
    (u1 u2 u3 u4 : ℚ) :
    reverse_transformation
      (random_transformation rotationMax scaleMin scaleMax
        inputH inputW patchH patchW scaleOverride u1 u2 u3 u4).record = none := by
  unfold random_transformation
  split <;> (dsimp only; split <;> simp [reverse_transformation, recordNum, List.lookup])

/-- `shift_max_h = (self.estimator.input_shape[self.i_h] - self.patch_shape[self.i_h] * scale) / 2.0`
(adversarial_patch_numpy.py line 357). -/
def shift_max_h (inputH patchH : ℕ) (scale : ℚ) : ℚ :=
  ((inputH : ℚ) - (patchH : ℚ) * scale) / 2

/-- Line 358, the width analogue of `shift_max_h`. -/
def shift_max_w (inputW patchW : ℕ) (scale : ℚ) : ℚ :=
  ((inputW : ℚ) - (patchW : ℚ) * scale) / 2

/-- C7: for unit draws `u1..u4 ∈ [0,1]`, a nonnegative rotation bound and
`scale_min ≤ scale_max` (both enforced by `_check_params`), the sampled angle
lies in `[-rotation_max, rotation_max]`; the scale equals the override when one
is supplied and otherwise lies in `[scale_min, scale_max]`; and the shift
offsets are bounded by the maximum offsets keeping the scaled patch inside the
image, except that when no valid shift range exists the shift is `(0, 0)`. -/
theorem random_transformation_draw_bounds
    (rotationMax scaleMin scaleMax : ℚ) (inputH inputW patchH patchW : ℕ)
    (scaleOverride : Option ℚ) (u1 u2 u3 u4 : ℚ) (r : RTResult)
    (hr : r = random_transformation rotationMax scaleMin scaleMax
      inputH inputW patchH patchW scaleOverride u1 u2 u3 u4)
    (hrot : 0 ≤ rotationMax) (hsc : scaleMin ≤ scaleMax)
    (h10 : 0 ≤ u1) (h11 : u1 ≤ 1) (h20 : 0 ≤ u2) (h21 : u2 ≤ 1)
    (h30 : 0 ≤ u3) (h31 : u3 ≤ 1) (h40 : 0 ≤ u4) (h41 : u4 ≤ 1) :
    (-rotationMax ≤ r.angle ∧ r.angle ≤ rotationMax)
    ∧ (∀ s, scaleOverride = some s → r.scale = s)
    ∧ (scaleOverride = none → scaleMin ≤ r.scale ∧ r.scale ≤ scaleMax)
    ∧ ((0 < shift_max_h inputH patchH r.scale ∧ 0 < shift_max_w inputW patchW r.scale) →
        (-(shift_max_h inputH patchH r.scale) ≤ r.shiftH
          ∧ r.shiftH ≤ shift_max_h inputH patchH r.scale
          ∧ -(shift_max_w inputW patchW r.scale) ≤ r.shiftW
          ∧ r.shiftW ≤ shift_max_w inputW patchW r.scale))
    ∧ (¬ (0 < shift_max_h inputH patchH r.scale ∧ 0 < shift_max_w inputW patchW r.scale) →
        r.shiftH = 0 ∧ r.shiftW = 0) := by
  subst hr
  have hang := uniform_mem (-rotationMax) rotationMax u1 (by linarith) h10 h11
  unfold random_transformation shift_max_h shift_max_w
  rcases scaleOverride with _ | s <;> dsimp only <;> split <;>
    rename_i hcond <;>
    simp only [shift_max_h, shift_max_w] at hcond ⊢
  · refine ⟨hang, by simp, fun _ => uniform_mem scaleMin scaleMax u2 hsc h20 h21, fun _ => ?_, fun hn => absurd hcond hn⟩
    have hu3 := uniform_mem (-((((inputH : ℚ) - (patchH : ℚ) * uniform scaleMin scaleMax u2)) / 2))
        (((inputH : ℚ) - (patchH : ℚ) * uniform scaleMin scaleMax u2) / 2) u3 (by nlinarith [hcond.1]) h30 h31
    have hu4 := uniform_mem (-((((inputW : ℚ) - (patchW : ℚ) * uniform scaleMin scaleMax u2)) / 2))
        (((inputW : ℚ) - (patchW : ℚ) * uniform scaleMin scaleMax u2) / 2) u4 (by nlinarith [hcond.2]) h40 h41
    refine ⟨by linarith [hu3.1], hu3.2, by linarith [hu4.1], hu4.2⟩
  · exact ⟨hang, by simp, fun _ => uniform_mem scaleMin scaleMax u2 hsc h20 h21,
      fun hp => absurd hp hcond, fun _ => ⟨trivial, trivial⟩⟩
  · refine ⟨hang, by simp_all, by simp, fun _ => ?_, fun hn => absurd hcond hn⟩
    have hu3 := uniform_mem (-((((inputH : ℚ) - (patchH : ℚ) * s)) / 2))
        (((inputH : ℚ) - (patchH : ℚ) * s) / 2) u3 (by nlinarith [hcond.1]) h30 h31
    have hu4 := uniform_mem (-((((inputW : ℚ) - (patchW : ℚ) * s)) / 2))
        (((inputW : ℚ) - (patchW : ℚ) * s) / 2) u4 (by nlinarith [hcond.2]) h40 h41
    refine ⟨by linarith [hu3.1], hu3.2, by linarith [hu4.1], hu4.2⟩
  · exact ⟨hang, by simp_all, by simp, fun hp => absurd hp hcond, fun _ => ⟨trivial, trivial⟩⟩

/-- Witness for C7 at a concrete sample: 28×28 image, rotation bound 10,
scale range `[1/2, 1]`, no override, all four unit draws equal to `1/2`. -/
theorem random_transformation_draw_bounds_witness :
    (-10 : ℚ) ≤ (random_transformation 10 (1/2) 1 28 28 28 28 none
        (1/2) (1/2) (1/2) (1/2)).angle
      ∧ (random_transformation 10 (1/2) 1 28 28 28 28 none
        (1/2) (1/2) (1/2) (1/2)).angle ≤ 10 :=
  (random_transformation_draw_bounds 10 (1/2) 1 28 28 28 28 none
    (1/2) (1/2) (1/2) (1/2) _ rfl (by norm_num) (by norm_num) (by norm_num)
    (by norm_num) (by norm_num) (by norm_num) (by norm_num) (by norm_num)
    (by norm_num) (by norm_num)).1

/-! ## Shape semantics of `_scale` (adversarial_patch_numpy.py lines 284-328)

3-d numpy shapes are triples; `none` models a raised numpy/scipy error.
Python's `// 2` is written `/ 2` on `ℤ`, which is floor division since the
divisor is positive. -/

/-- A 3-d numpy shape. -/
abbrev Dims3 := ℕ × ℕ × ℕ

/-- Output shape of `scipy.ndimage.zoom(input, zoom=(z1, z2, z3), order=1)`:
each output dimension is `int(round(dim * zoom))` with round-half-to-even;
`none` models scipy rejecting an empty input array. -/
def zoomShape (d : Dims3) (z1 z2 z3 : ℚ) : Option Dims3 :=
  if d.1 = 0 ∨ d.2.1 = 0 ∨ d.2.2 = 0 then none
  else some ((roundHalfEven ((d.1 : ℚ) * z1)).toNat,
             (roundHalfEven ((d.2.1 : ℚ) * z2)).toNat,
             (roundHalfEven ((d.2.2 : ℚ) * z3)).toNat)

/-- Whether a numpy array of shape `src` can be assigned into a view of shape
`tgt` (same rank 3): each source dimension must equal the target dimension or
be 1. -/
def broadcastOk (src tgt : Dims3) : Bool :=
  (src.1 == tgt.1 || src.1 == 1) && (src.2.1 == tgt.2.1 || src.2.1 == 1)
    && (src.2.2 == tgt.2.2 || src.2.2 == 1)

/-- Shape-level embedding of `AdversarialPatchNumpy._scale` (lines 284-328).
`cf` is `estimator.channels_first`; `patchShape` is `self.patch_shape` (from
which the branch reads `height`/`width`); `x` is the shape of the input array.
Mirrors the source exactly, including the stray first assignment
`x_out[top : top + scale_h, left : left + scale_w] = zoom(x, zooms)` (line
302), which slices axes 0 and 1 whatever the layout, and the crop slice
`x[top : top + scale_h, left : left + scale_w]` of the `scale > 1.0` branch
(line 315). -/
def scaleShape (cf : Bool) (patchShape : Dims3) (x : Dims3) (s : ℚ) :
    Option Dims3 :=
  let zooms : ℚ × ℚ × ℚ := if cf then (1, s, s) else (s, s, 1)
  let height : ℕ := if cf then patchShape.2.1 else patchShape.1
  let width : ℕ := if cf then patchShape.2.2 else patchShape.2.1
  if s < 1 then
    -- scale_h = int(np.round(height * scale)); top = (height - scale_h) // 2
    let scaleH : ℤ := roundHalfEven ((height : ℚ) * s)
    let scaleW : ℤ := roundHalfEven ((width : ℚ) * s)
    let top : ℤ := ((height : ℤ) - scaleH) / 2
    let left : ℤ := ((width : ℤ) - scaleW) / 2
    do
      let z ← zoomShape x zooms.1 zooms.2.1 zooms.2.2
      -- line 301-302: x_out = np.zeros_like(x);
      -- x_out[top : top + scale_h, left : left + scale_w] = zoom(x, zooms)
      let r1 : Dims3 :=
        (pySliceLen x.1 top (top + scaleH), pySliceLen x.2.1 left (left + scaleW), x.2.2)
      if broadcastOk z r1 then
        if cf then
          -- line 305: x_out[:, top : top + scale_h, left : left + scale_w] = zoom(x, zooms)
          let r2 : Dims3 :=
            (x.1, pySliceLen x.2.1 top (top + scaleH), pySliceLen x.2.2 left (left + scaleW))
          if broadcastOk z r2 then some x else none
        else
          -- line 307: x_out[top : top + scale_h, left : left + scale_w, :] = zoom(x, zooms)
          let r2 : Dims3 :=
            (pySliceLen x.1 top (top + scaleH), pySliceLen x.2.1 left (left + scaleW), x.2.2)
          if broadcastOk z r2 then some x else none
      else none
  else if 1 < s then
    -- scale_h = int(np.round(height / scale)); top = (height - scale_h) // 2
    let scaleH : ℤ := roundHalfEven ((height : ℚ) / s)
    let scaleW : ℤ := roundHalfEven ((width : ℚ) / s)
    let top : ℤ := ((height : ℤ) - scaleH) / 2
    let left : ℤ := ((width : ℤ) - scaleW) / 2
    -- line 315: x_out = zoom(x[top : top + scale_h, left : left + scale_w], zooms)
    let sliced : Dims3 :=
      (pySliceLen x.1 top (top + scaleH), pySliceLen x.2.1 left (left + scaleW), x.2.2)
    do
      let z ← zoomShape sliced zooms.1 zooms.2.1 zooms.2.2
      -- cut_top = (x_out.shape[self.i_h] - height) // 2
      let ih : ℕ := if cf then z.2.1 else z.1
      let iw : ℕ := if cf then z.2.2 else z.2.1
      let cutTop : ℤ := ((ih : ℤ) - height) / 2
      let cutLeft : ℤ := ((iw : ℤ) - width) / 2
      if cf then
        -- line 321: x_out = x_out[:, cut_top : cut_top + height, cut_left : cut_left + width]
        some (z.1, pySliceLen z.2.1 cutTop (cutTop + (height : ℤ)),
              pySliceLen z.2.2 cutLeft (cutLeft + (width : ℤ)))
      else
        -- line 323: x_out = x_out[cut_top : cut_top + height, cut_left : cut_left + width, :]
        some (pySliceLen z.1 cutTop (cutTop + (height : ℤ)),
              pySliceLen z.2.1 cutLeft (cutLeft + (width : ℤ)), z.2.2)
  else
    -- line 325-326: else: x_out = x
    some x

theorem roundHalfEven_intCast (n : ℤ) : roundHalfEven (n : ℚ) = n := by
  unfold roundHalfEven
  simp [Int.floor_intCast]

theorem roundHalfEven_natCast (n : ℕ) : roundHalfEven (n : ℚ) = n := by
  have := roundHalfEven_intCast (n : ℤ)
  push_cast at this
  exact this

theorem floor_le_roundHalfEven (q : ℚ) : ⌊q⌋ ≤ roundHalfEven q := by
  unfold roundHalfEven
  dsimp only
  split_ifs <;> omega

theorem roundHalfEven_le_floor_add_one (q : ℚ) : roundHalfEven q ≤ ⌊q⌋ + 1 := by
  unfold roundHalfEven
  dsimp only
  split_ifs <;> omega

theorem roundHalfEven_mono {p q : ℚ} (h : p ≤ q) :
    roundHalfEven p ≤ roundHalfEven q := by
  rcases lt_or_eq_of_le (Int.floor_le_floor h) with hf | hf
  · calc roundHalfEven p ≤ ⌊p⌋ + 1 := roundHalfEven_le_floor_add_one p
      _ ≤ ⌊q⌋ := by omega
      _ ≤ roundHalfEven q := floor_le_roundHalfEven q
  · have hr : p - ⌊p⌋ ≤ q - ⌊q⌋ := by
      rw [← hf]
      linarith
    unfold roundHalfEven
    dsimp only
    rw [← hf]
    split_ifs <;> first | omega | linarith

theorem roundHalfEven_nonneg {q : ℚ} (h : 0 ≤ q) : 0 ≤ roundHalfEven q := by
  have := floor_le_roundHalfEven q
  have h2 : (0 : ℤ) ≤ ⌊q⌋ := Int.floor_nonneg.mpr h
  omega

theorem pySliceLen_exact (len : ℕ) (start k : ℤ) (h0 : 0 ≤ start)
    (hk : 0 ≤ k) (hle : start + k ≤ len) :
    pySliceLen len start (start + k) = k.toNat := by
  unfold pySliceLen
  dsimp only
  split_ifs <;> omega

theorem broadcastOk_self (d : Dims3) : broadcastOk d d = true := by
  simp [broadcastOk]

/-- C3 (amended): for channels-last tensors whose shape matches the patch
shape, `_scale` preserves the shape: a factor `< 1` center-pads and a factor
`> 1` center-crops back to `(h, w, c)`, provided the rounded regions are
nonempty and the re-zoomed crop is at least as large as the original
(conditions that hold in the non-degenerate regime); and at a factor equal to
the image span the crop region computed by the code is exactly 1 pixel, never
zero.  (Channels-first inputs and degenerate factors are excluded: see the
counterexample.) -/
theorem scaleShape_preserves_shape (h w c : ℕ) (s : ℚ)
    (hh : 0 < h) (hw : 0 < w) (hc : 0 < c) (hs : 0 < s)
    (hlt : s < 1 → 1 ≤ roundHalfEven ((h : ℚ) * s) ∧ 1 ≤ roundHalfEven ((w : ℚ) * s))
    (hgt : 1 < s →
      1 ≤ roundHalfEven ((h : ℚ) / s)
      ∧ (h : ℤ) ≤ roundHalfEven (((roundHalfEven ((h : ℚ) / s) : ℤ) : ℚ) * s)
      ∧ 1 ≤ roundHalfEven ((w : ℚ) / s)
      ∧ (w : ℤ) ≤ roundHalfEven (((roundHalfEven ((w : ℚ) / s) : ℤ) : ℚ) * s)) :
    scaleShape false (h, w, c) (h, w, c) s = some (h, w, c)
    ∧ (s = (h : ℚ) → roundHalfEven ((h : ℚ) / s) = 1) := by
  constructor
  · rcases lt_trichotomy s 1 with hs1 | hs1 | hs1
    · -- scale < 1: center-pad
      obtain ⟨hH1, hW1⟩ := hlt hs1
      have hshle : roundHalfEven ((h : ℚ) * s) ≤ (h : ℤ) := by
        have := roundHalfEven_mono (show (h : ℚ) * s ≤ (h : ℚ) by nlinarith)
        rwa [roundHalfEven_natCast] at this
      have hswle : roundHalfEven ((w : ℚ) * s) ≤ (w : ℤ) := by
        have := roundHalfEven_mono (show (w : ℚ) * s ≤ (w : ℚ) by nlinarith)
        rwa [roundHalfEven_natCast] at this
      have hzoom : zoomShape (h, w, c) s s 1 =
          some ((roundHalfEven ((h : ℚ) * s)).toNat,
                (roundHalfEven ((w : ℚ) * s)).toNat, c) := by
        unfold zoomShape
        rw [if_neg (by push_neg; exact ⟨hh.ne', hw.ne', hc.ne'⟩)]
        rw [mul_one, roundHalfEven_natCast, Int.toNat_natCast]
      have hsliceH : pySliceLen h (((h : ℤ) - roundHalfEven ((h : ℚ) * s)) / 2)
          ((((h : ℤ) - roundHalfEven ((h : ℚ) * s)) / 2) + roundHalfEven ((h : ℚ) * s))
          = (roundHalfEven ((h : ℚ) * s)).toNat :=
        pySliceLen_exact h _ _ (by omega) (by omega) (by omega)
      have hsliceW : pySliceLen w (((w : ℤ) - roundHalfEven ((w : ℚ) * s)) / 2)
          ((((w : ℤ) - roundHalfEven ((w : ℚ) * s)) / 2) + roundHalfEven ((w : ℚ) * s))
          = (roundHalfEven ((w : ℚ) * s)).toNat :=
        pySliceLen_exact w _ _ (by omega) (by omega) (by omega)
      simp only [scaleShape, Bool.false_eq_true, if_false]
      rw [if_pos hs1, hzoom]
      simp [hsliceH, hsliceW, broadcastOk_self]
    · -- scale = 1: x_out = x
      simp only [scaleShape, Bool.false_eq_true, if_false]
      rw [if_neg (by simp [hs1]), if_neg (by simp [hs1])]
    · -- scale > 1: center-crop
      obtain ⟨hH1, hH2, hW1, hW2⟩ := hgt hs1
      have hshle : roundHalfEven ((h : ℚ) / s) ≤ (h : ℤ) := by
        have h1 : (h : ℚ) / s ≤ (h : ℚ) := div_le_self (by positivity) (le_of_lt hs1)
        have := roundHalfEven_mono h1
        rwa [roundHalfEven_natCast] at this
      have hswle : roundHalfEven ((w : ℚ) / s) ≤ (w : ℤ) := by
        have h1 : (w : ℚ) / s ≤ (w : ℚ) := div_le_self (by positivity) (le_of_lt hs1)
        have := roundHalfEven_mono h1
        rwa [roundHalfEven_natCast] at this
      have hsliceH : pySliceLen h (((h : ℤ) - roundHalfEven ((h : ℚ) / s)) / 2)
          ((((h : ℤ) - roundHalfEven ((h : ℚ) / s)) / 2) + roundHalfEven ((h : ℚ) / s))
          = (roundHalfEven ((h : ℚ) / s)).toNat :=
        pySliceLen_exact h _ _ (by omega) (by omega) (by omega)
      have hsliceW : pySliceLen w (((w : ℤ) - roundHalfEven ((w : ℚ) / s)) / 2)
          ((((w : ℤ) - roundHalfEven ((w : ℚ) / s)) / 2) + roundHalfEven ((w : ℚ) / s))
          = (roundHalfEven ((w : ℚ) / s)).toNat :=
        pySliceLen_exact w _ _ (by omega) (by omega) (by omega)
      have hcastH : (((roundHalfEven ((h : ℚ) / s)).toNat : ℚ)) =
          ((roundHalfEven ((h : ℚ) / s) : ℤ) : ℚ) := by
        have h0 : (0 : ℤ) ≤ roundHalfEven ((h : ℚ) / s) := by omega
        exact_mod_cast Int.toNat_of_nonneg h0
      have hcastW : (((roundHalfEven ((w : ℚ) / s)).toNat : ℚ)) =
          ((roundHalfEven ((w : ℚ) / s) : ℤ) : ℚ) := by
        have h0 : (0 : ℤ) ≤ roundHalfEven ((w : ℚ) / s) := by omega
        exact_mod_cast Int.toNat_of_nonneg h0
      have hzoom : zoomShape ((roundHalfEven ((h : ℚ) / s)).toNat,
            (roundHalfEven ((w : ℚ) / s)).toNat, c) s s 1 =
          some ((roundHalfEven (((roundHalfEven ((h : ℚ) / s) : ℤ) : ℚ) * s)).toNat,
                (roundHalfEven (((roundHalfEven ((w : ℚ) / s) : ℤ) : ℚ) * s)).toNat, c) := by
        unfold zoomShape
        rw [if_neg (by dsimp only; push_neg; refine ⟨by omega, by omega, hc.ne'⟩)]
        rw [mul_one, roundHalfEven_natCast, Int.toNat_natCast, hcastH, hcastW]
      have hcutH : pySliceLen (roundHalfEven (((roundHalfEven ((h : ℚ) / s) : ℤ) : ℚ) * s)).toNat
          ((((roundHalfEven (((roundHalfEven ((h : ℚ) / s) : ℤ) : ℚ) * s)).toNat : ℤ) - (h : ℤ)) / 2)
          (((((roundHalfEven (((roundHalfEven ((h : ℚ) / s) : ℤ) : ℚ) * s)).toNat : ℤ) - (h : ℤ)) / 2) + (h : ℤ))
          = ((h : ℤ)).toNat := by
        refine pySliceLen_exact _ _ _ (by omega) (by omega) (by omega)
      have hcutW : pySliceLen (roundHalfEven (((roundHalfEven ((w : ℚ) / s) : ℤ) : ℚ) * s)).toNat
          ((((roundHalfEven (((roundHalfEven ((w : ℚ) / s) : ℤ) : ℚ) * s)).toNat : ℤ) - (w : ℤ)) / 2)
          (((((roundHalfEven (((roundHalfEven ((w : ℚ) / s) : ℤ) : ℚ) * s)).toNat : ℤ) - (w : ℤ)) / 2) + (w : ℤ))
          = ((w : ℤ)).toNat := by
        refine pySliceLen_exact _ _ _ (by omega) (by omega) (by omega)
      simp only [scaleShape, Bool.false_eq_true, if_false]
      rw [if_neg (by linarith), if_pos hs1, hsliceH, hsliceW, hzoom]
      simp only [Option.bind_eq_bind, Option.some_bind']
      rw [hcutH, hcutW, Int.toNat_natCast, Int.toNat_natCast]
  · intro hspan
    rw [hspan, div_self (by exact_mod_cast hh.ne')]
    have := roundHalfEven_natCast 1
    norm_num at this ⊢
    exact this

/-- Witness for C3 (amended) at a 28×28×3 channels-last tensor shrunk by
factor `1/2`. -/
theorem scaleShape_preserves_shape_witness :
    scaleShape false (28, 28, 3) (28, 28, 3) (1/2) = some (28, 28, 3) :=
  (scaleShape_preserves_shape 28 28 3 (1/2) (by norm_num) (by norm_num)
    (by norm_num) (by norm_num)
    (by intro _; constructor <;> norm_num [roundHalfEven])
    (by intro hcon; norm_num at hcon)).1

set_option maxHeartbeats 1600000 in
/-- C3 counterexample: `_scale` does not always preserve the shape.  A 3×3×1
channels-last tensor enlarged by factor `5/2` comes back as 1×1×1 (the
re-zoomed crop is smaller than the original, so the final centered crop with a
negative Python index keeps a single row/column); and a channels-first 1×4×4
tensor shrunk by factor `1/2` hits the stray assignment of line 302, which
slices the channel axis and raises a numpy broadcast error. -/
theorem scaleShape_counterexample :
    (scaleShape false (3, 3, 1) (3, 3, 1) (5/2) = some (1, 1, 1)
      ∧ some ((1 : ℕ), (1 : ℕ), (1 : ℕ)) ≠ some ((3 : ℕ), (3 : ℕ), (1 : ℕ)))
    ∧ scaleShape true (1, 4, 4) (1, 4, 4) (1/2) = none := by
  refine ⟨⟨?_, by decide⟩, ?_⟩
  · norm_num [scaleShape, zoomShape, pySliceLen, broadcastOk, roundHalfEven]
  · norm_num [scaleShape, zoomShape, pySliceLen, broadcastOk, roundHalfEven]
    decide

/-- The branch structure of `_scale` (lines 295-328): the `scale < 1.0` branch
(zoom and center-pad, here the abstract `shrink`) and the `scale > 1.0` branch
(center-crop and zoom, here the abstract `enlarge`) both interpolate, while
the final `else` returns `x` itself. -/
def scaleDispatch {α : Type} (shrink enlarge : α → ℚ → α) (x : α) (s : ℚ) : α :=
  if s < 1 then shrink x s
  else if 1 < s then enlarge x s
  else x

/-- C10: scaling by exactly `1.0` returns the input itself, whatever the two
interpolating branches would compute — no interpolation, padding or cropping
is applied, so factor 1 is exactly lossless. -/
theorem scaleDispatch_one {α : Type} (shrink enlarge : α → ℚ → α) (x : α) :
    scaleDispatch shrink enlarge x 1 = x := by
  unfold scaleDispatch
  norm_num

/-! ## The circular patch mask (`_get_circular_patch_mask`, lines 220-250)

The mask is 2-d on the spatial grid (it is then broadcast unchanged across the
channel axis, line 246-249, which we omit); it is represented as explicit
dimensions plus an entry function. -/

/-- A 2-d numpy array: dimensions plus an entry function (entries outside the
grid are irrelevant; the generator puts 0 there). -/
structure Arr2 where
  rows : ℕ
  cols : ℕ
  entry : ℕ → ℕ → ℚ

/-- `np.linspace(-1, 1, num=d)[k]`: step `2 / (d - 1)` for `d ≥ 2`; for
`d = 1` numpy returns `[-1.0]` (the start point). -/
def linspace (d k : ℕ) : ℚ :=
  if d ≤ 1 then -1 else -1 + 2 * k / ((d : ℚ) - 1)

/-- The un-padded `diameter × diameter` mask,
`1 - np.clip((x_grid ** 2 + y_grid ** 2) ** sharpness, -1, 1)` (lines
226-231): with `meshgrid`, `x_grid` varies along columns and `y_grid` along
rows. -/
def maskCore (d sharp : ℕ) (i j : ℕ) : ℚ :=
  1 - npClip (-1) 1 ((linspace d j ^ 2 + linspace d i ^ 2) ^ sharp)

/-- Embedding of `AdversarialPatchNumpy._get_circular_patch_mask` (lines
220-250) on the spatial grid: the disk mask of diameter `min h w` is padded
with the constant 0 to the `h × w` image shape, `(h - d) / 2` rows/columns
before and the remainder after. -/
def get_circular_patch_mask (h w sharp : ℕ) : Arr2 :=
  let diameter := min h w
  let padHBefore := (h - diameter) / 2
  let padHAfter := h - padHBefore - diameter
  let padWBefore := (w - diameter) / 2
  let padWAfter := w - padWBefore - diameter
  { rows := padHBefore + diameter + padHAfter
    cols := padWBefore + diameter + padWAfter
    entry := fun i j =>
      if padHBefore ≤ i ∧ i < padHBefore + diameter
          ∧ padWBefore ≤ j ∧ j < padWBefore + diameter then
        maskCore diameter sharp (i - padHBefore) (j - padWBefore)
      else 0 }

/-- `np.rot90(a)`: a quarter turn of the 2-d array,
`rot90(a)[i, j] = a[j, cols - 1 - i]`. -/
def rot90 (a : Arr2) : Arr2 :=
  { rows := a.cols, cols := a.rows, entry := fun i j => a.entry j (a.cols - 1 - i) }

/-- Equality of two 2-d arrays: same dimensions and equal entries on the grid. -/
def arrEqOn (a b : Arr2) : Prop :=
  a.rows = b.rows ∧ a.cols = b.cols
    ∧ ∀ i j, i < a.rows → j < a.cols → a.entry i j = b.entry i j

/-- Executable version of `arrEqOn`. -/
def arrBEq (a b : Arr2) : Bool :=
  a.rows == b.rows && (a.cols == b.cols
    && ((List.range a.rows).all fun i =>
        (List.range a.cols).all fun j => decide (a.entry i j = b.entry i j)))

theorem linspace_reflect_sq (d i : ℕ) (hi : i < d) :
    linspace d (d - 1 - i) ^ 2 = linspace d i ^ 2 := by
  unfold linspace
  rcases le_or_lt d 1 with hd | hd
  · rw [if_pos hd, if_pos hd]
  · rw [if_neg (by omega), if_neg (by omega)]
    have hcast : ((d - 1 - i : ℕ) : ℚ) = (d : ℚ) - 1 - (i : ℚ) := by
      have h1 : d - 1 - i = d - (1 + i) := by omega
      rw [h1, Nat.cast_sub (by omega : 1 + i ≤ d)]
      push_cast
      ring
    rw [hcast]
    have hne : (d : ℚ) - 1 ≠ 0 := by
      have : (2 : ℚ) ≤ (d : ℚ) := by exact_mod_cast hd
      intro hcon
      rw [sub_eq_zero] at hcon
      linarith
    field_simp
    ring

/-- C8 (amended): every circular patch mask has all entries in `[0, 1]` and
carries zero weight outside the central bounding square of the circular
footprint; and it is symmetric under a 90° rotation of its spatial grid
whenever that grid is square (`h = w`, in which case there is no padding).
For `h ≠ w` the mask and its quarter turn have different shapes: see the
counterexample. -/
theorem get_circular_patch_mask_props (h w sharp : ℕ) :
    (∀ i j, 0 ≤ (get_circular_patch_mask h w sharp).entry i j
      ∧ (get_circular_patch_mask h w sharp).entry i j ≤ 1)
    ∧ (∀ i j,
        (i < (h - min h w) / 2 ∨ (h - min h w) / 2 + min h w ≤ i
          ∨ j < (w - min h w) / 2 ∨ (w - min h w) / 2 + min h w ≤ j) →
        (get_circular_patch_mask h w sharp).entry i j = 0)
    ∧ (h = w →
        arrEqOn (rot90 (get_circular_patch_mask h w sharp))
          (get_circular_patch_mask h w sharp)) := by
  have hcore : ∀ d s i j, 0 ≤ maskCore d s i j ∧ maskCore d s i j ≤ 1 := by
    intro d s i j
    unfold maskCore npClip
    have hz : (0 : ℚ) ≤ (linspace d j ^ 2 + linspace d i ^ 2) ^ s := by positivity
    constructor
    · have : min (max ((linspace d j ^ 2 + linspace d i ^ 2) ^ s) (-1)) 1 ≤ 1 :=
        min_le_right _ _
      linarith
    · have h1 : (0 : ℚ) ≤ max ((linspace d j ^ 2 + linspace d i ^ 2) ^ s) (-1) :=
        le_trans hz (le_max_left _ _)
      have : (0 : ℚ) ≤ min (max ((linspace d j ^ 2 + linspace d i ^ 2) ^ s) (-1)) 1 :=
        le_min h1 (by norm_num)
      linarith
  refine ⟨?_, ?_, ?_⟩
  · intro i j
    unfold get_circular_patch_mask
    dsimp only
    split_ifs with hcond
    · exact hcore _ _ _ _
    · norm_num
  · intro i j hout
    unfold get_circular_patch_mask
    dsimp only
    rw [if_neg (by omega)]
  · intro hhw
    subst hhw
    unfold arrEqOn rot90 get_circular_patch_mask
    simp only [Nat.min_self, Nat.sub_self, Nat.zero_div, Nat.zero_add,
      Nat.add_zero, Nat.zero_le, Nat.sub_zero]
    refine ⟨trivial, trivial, ?_⟩
    intro i j hi hj
    have hin : h - 1 - i < h := by omega
    rw [if_pos ⟨trivial, hj, trivial, hin⟩, if_pos ⟨trivial, hi, trivial, hj⟩]
    unfold maskCore
    rw [linspace_reflect_sq h i hi]
    ring_nf

/-- Witness for C8 (amended) on a 3×3 grid: entry `(1, 1)` lies in `[0, 1]`,
the entry at row 3 (outside the bounding square of the footprint) is 0, and
the quarter-turned mask agrees with the mask at `(1, 2)`. -/
theorem get_circular_patch_mask_props_witness :
    (0 ≤ (get_circular_patch_mask 3 3 40).entry 1 1
      ∧ (get_circular_patch_mask 3 3 40).entry 1 1 ≤ 1)
    ∧ (get_circular_patch_mask 3 3 40).entry 3 0 = 0
    ∧ (rot90 (get_circular_patch_mask 3 3 40)).entry 1 2
        = (get_circular_patch_mask 3 3 40).entry 1 2 :=
  ⟨(get_circular_patch_mask_props 3 3 40).1 1 1,
   (get_circular_patch_mask_props 3 3 40).2.1 3 0 (by decide),
   ((get_circular_patch_mask_props 3 3 40).2.2 rfl).2.2 1 2 (by decide) (by decide)⟩

/-- C8 counterexample: the mask of a non-square 3×5 image is not symmetric
under a 90° rotation of its spatial grid — the quarter turn does not even
have the same shape (5×3 versus 3×5). -/
theorem get_circular_patch_mask_counterexample :
    (rot90 (get_circular_patch_mask 3 5 40)).rows
        ≠ (get_circular_patch_mask 3 5 40).rows
    ∧ arrBEq (rot90 (get_circular_patch_mask 3 5 40))
        (get_circular_patch_mask 3 5 40) = false := by
  constructor
  · decide
  · decide

/-! ## DeepZ certification (`PytorchDeepZ.certify`, pytorch.py lines 276-304)

The final-layer zonotope is a center vector (the logits) plus a list of
error-term rows. -/

/-- Modelled from the spec: `ZonoBounds.certify_via_subtraction` is imported
from `art.estimators.certification.deep_z.deep_z`, a module that is not part
of the given sources.  Per spec §4.6, for every class `k ≠ predicted_class` it
"computes the zonotope of `logit[predicted_class] - logit[k]` by vector
subtraction of center and error-term rows, then computes its interval lower
bound (center minus sum of absolute error terms)", and certifies class `k`
iff this lower bound is `> 0`. -/
def certify_via_subtraction (predictedClass classToConsider : ℕ)
    (cent : List ℚ) (eps : List (List ℚ)) : Bool :=
  let diffCent := cent.getD predictedClass 0 - cent.getD classToConsider 0
  let lowerBound := diffCent -
    (eps.map (fun row => |row.getD predictedClass 0 - row.getD classToConsider 0|)).sum
  decide (0 < lowerBound)

/-- Embedding of the certification loop of `PytorchDeepZ.certify` (pytorch.py
lines 296-304), applied to the final-layer zonotope `(cent, eps)`: for every
`k in range(nb_classes)` with `k != prediction` the per-class result is
collected, and the conjunction `all(certification_results)` is returned. -/
def certify (nbClasses : ℕ) (cent : List ℚ) (eps : List (List ℚ))
    (prediction : ℕ) : Bool :=
  let certificationResults :=
    ((List.range nbClasses).filter (fun k => k != prediction)).map
      (fun k => certify_via_subtraction prediction k cent eps)
  certificationResults.all id

/-- C2: `certify` returns `true` iff for every class `k ≠ prediction` the
interval lower bound of the zonotope of `logit[prediction] - logit[k]` —
difference of centers minus the sum of absolute values of the differenced
error-term rows — is strictly positive; if any class fails the test,
`certify` returns `false`. -/
theorem certify_iff (nbClasses : ℕ) (cent : List ℚ) (eps : List (List ℚ))
    (p : ℕ) :
    certify nbClasses cent eps p = true ↔
      ∀ k, k < nbClasses → k ≠ p →
        0 < (cent.getD p 0 - cent.getD k 0)
          - (eps.map (fun row => |row.getD p 0 - row.getD k 0|)).sum := by
  unfold certify certify_via_subtraction
  simp [List.all_eq_true, List.mem_filter, List.mem_range]
  constructor <;> intro hk k h1 h2 <;> have := hk k h1 h2 <;> linarith

/-- C9: with a single class (`nb_classes = 1`) and the (only possible)
in-range prediction, the per-class loop of `certify` produces no results and
`all([])` is vacuously `True`, whatever the center and error terms. -/
theorem certify_one_class (cent : List ℚ) (eps : List (List ℚ)) (p : ℕ)
    (hp : p < 1) : certify 1 cent eps p = true := by
  have hp0 : p = 0 := by omega
  subst hp0
  rfl

/-- Witness for C9: a concrete one-logit zonotope with one error term. -/
theorem certify_one_class_witness : certify 1 [5] [[1]] 0 = true :=
  certify_one_class [5] [[1]] 0 (by decide)

/-! ## Model conversion (`ConvertedModel.__init__`, pytorch.py lines 45-104)

The forward hook collects the model's children in execution order; the
embedding takes that ordered layer list directly (the spec's design note 9
prescribes exactly this eager traversal). -/

/-- Concrete layer types as seen by the converter; `other` stands for any
module outside {`Conv2d`, `Linear`, `ReLU`} (e.g. a pooling layer). -/
inductive PyLayer where
  | conv2d
  | linear
  | relu
  | other
  deriving DecidableEq

/-- The abstract operations registered in `self.ops`. -/
inductive ZonoOp where
  | zonoConv
  | zonoDense
  | zonoReLU
  deriving DecidableEq

/-- First loop of `ConvertedModel.__init__` (lines 68-92): each supported
module is converted in order; any other module raises
`ValueError("Supported Operations are Conv2D, Linear, and RelU")`, so no
partial model is produced. -/
def convertOps : List PyLayer → Except String (List ZonoOp)
  | [] => Except.ok []
  | PyLayer.conv2d :: ls => (convertOps ls).map (fun ops => ZonoOp.zonoConv :: ops)
  | PyLayer.linear :: ls => (convertOps ls).map (fun ops => ZonoOp.zonoDense :: ops)
  | PyLayer.relu :: ls => (convertOps ls).map (fun ops => ZonoOp.zonoReLU :: ops)
  | PyLayer.other :: _ => Except.error "Supported Operations are Conv2D, Linear, and RelU"

/-- Python list indexing `l[i]`, including negative wrap-around; `none` models
an `IndexError`. -/
def pyGet {α : Type} (l : List α) (i : ℤ) : Option α :=
  if i < 0 then
    if 0 ≤ i + l.length then l.get? (i + l.length).toNat else none
  else l.get? i.toNat

/-- The condition under which iteration `op_num = i` of the reshape-inference
loop (lines 94-104) assigns `self.reshape_op_num = i`: `ops[i]` is dense and
`ops[i - 1]` is a convolution, or `ops[i - 1]` is a ReLU and `ops[i - 2]` is a
convolution — with Python indexing, so for small `i` the lookups wrap to the
end of the list. -/
def reshapeHit (ops : List ZonoOp) (i : ℕ) : Bool :=
  (ops.get? i == some ZonoOp.zonoDense)
    && (pyGet ops ((i : ℤ) - 1) == some ZonoOp.zonoConv
      || (pyGet ops ((i : ℤ) - 1) == some ZonoOp.zonoReLU
        && pyGet ops ((i : ℤ) - 2) == some ZonoOp.zonoConv))

/-- The reshape-inference loop (lines 94-104): every qualifying dense layer
overwrites `self.reshape_op_num`; `none` means the attribute is never set. -/
def inferReshape (ops : List ZonoOp) : Option ℕ :=
  (List.range ops.length).foldl
    (fun acc i => if reshapeHit ops i then some i else acc) none

theorem foldl_overwrite (q : ℕ → Bool) (l : List ℕ) (acc : Option ℕ) :
    l.foldl (fun a i => if q i then some i else a) acc
      = ((l.filter q).getLast?).orElse (fun _ => acc) := by
  induction l generalizing acc with
  | nil => cases acc <;> rfl
  | cons x xs ih =>
    rw [List.foldl_cons, ih, List.filter_cons]
    by_cases hq : q x
    · simp only [hq, if_pos, if_true]
      cases hfl : (xs.filter q).getLast? <;>
        simp [List.getLast?_cons, hfl, Option.orElse]
    · simp [hq]

/-- C4 (amended): on a layer list containing only convolutions, dense layers
and ReLUs, conversion succeeds and the inferred reshape point is the LAST
dense layer satisfying the preceded-by-convolution (or
ReLU-preceded-by-convolution) test — each qualifying dense overwrites the
index, so with several convolution→dense transitions the final, not the
first, one wins; `none` when no dense qualifies.  Any other layer type aborts
conversion with the unsupported-layer error and no partial model. -/
theorem convert_infers_last_reshape (layers : List PyLayer) :
    (PyLayer.other ∈ layers →
      convertOps layers
        = Except.error "Supported Operations are Conv2D, Linear, and RelU")
    ∧ (PyLayer.other ∉ layers →
      ∃ ops, convertOps layers = Except.ok ops
        ∧ inferReshape ops
            = ((List.range ops.length).filter (reshapeHit ops)).getLast?) := by
  constructor
  · intro hmem
    induction layers with
    | nil => cases hmem
    | cons x xs ih =>
      rcases List.mem_cons.mp hmem with hx | hxs
      · subst hx
        rfl
      · cases x <;> simp [convertOps, ih hxs, Except.map]
  · intro hnmem
    have hops : ∃ ops, convertOps layers = Except.ok ops := by
      induction layers with
      | nil => exact ⟨[], rfl⟩
      | cons x xs ih =>
        have hx : x ≠ PyLayer.other := fun hcon => hnmem (hcon ▸ List.mem_cons_self x xs)
        have hxs : PyLayer.other ∉ xs := fun hcon => hnmem (List.mem_cons_of_mem x hcon)
        obtain ⟨ops, hops⟩ := ih hxs
        cases x with
        | conv2d => exact ⟨ZonoOp.zonoConv :: ops, by simp [convertOps, hops, Except.map]⟩
        | linear => exact ⟨ZonoOp.zonoDense :: ops, by simp [convertOps, hops, Except.map]⟩
        | relu => exact ⟨ZonoOp.zonoReLU :: ops, by simp [convertOps, hops, Except.map]⟩
        | other => exact absurd rfl hx
    obtain ⟨ops, hops⟩ := hops
    refine ⟨ops, hops, ?_⟩
    unfold inferReshape
    rw [foldl_overwrite]
    cases ((List.range ops.length).filter (reshapeHit ops)).getLast? <;> rfl

/-- Witness for C4 (amended): a conv–ReLU–pool network aborts with the
unsupported-layer error, and a conv–dense–conv–dense network converts with
the last transition, index 3, as reshape point. -/
theorem convert_infers_last_reshape_witness :
    (PyLayer.other ∈ [PyLayer.conv2d, PyLayer.relu, PyLayer.other]
      ∧ convertOps [PyLayer.conv2d, PyLayer.relu, PyLayer.other]
        = Except.error "Supported Operations are Conv2D, Linear, and RelU")
    ∧ (PyLayer.other ∉ [PyLayer.conv2d, PyLayer.linear, PyLayer.conv2d, PyLayer.linear]
      ∧ ∃ ops, convertOps [PyLayer.conv2d, PyLayer.linear, PyLayer.conv2d, PyLayer.linear]
          = Except.ok ops
        ∧ inferReshape ops
            = ((List.range ops.length).filter (reshapeHit ops)).getLast?) :=
  ⟨⟨by decide, (convert_infers_last_reshape _).1 (by decide)⟩,
   ⟨by decide, (convert_infers_last_reshape _).2 (by decide)⟩⟩

/-- C4 counterexample: the claim says the reshape point is the FIRST dense
layer preceded by a convolution; on `[conv, dense, conv, dense]` that would be
index 1, but the loop's overwriting assignment leaves index 3. -/
theorem convert_reshape_counterexample :
    convertOps [PyLayer.conv2d, PyLayer.linear, PyLayer.conv2d, PyLayer.linear]
      = Except.ok [ZonoOp.zonoConv, ZonoOp.zonoDense, ZonoOp.zonoConv, ZonoOp.zonoDense]
    ∧ inferReshape [ZonoOp.zonoConv, ZonoOp.zonoDense, ZonoOp.zonoConv, ZonoOp.zonoDense]
      = some 3
    ∧ (3 : ℕ) ≠ 1 :=
  ⟨rfl, rfl, by decide⟩

/-! ## The optimization loop of `generate` (lines 148-170) -/

/-- `num_batches = int(x.shape[0] / self.batch_size)` (line 151): float true
division truncated by `int(...)`, which on nonnegative operands is floor
division. -/
def num_batches (n batchSize : ℕ) : ℕ := n / batchSize

/-- The gradient accumulation of one optimizer iteration (lines 152-166):
`patch_gradients` starts at zero; for each of the `num_batches` full batches
one `loss_gradient` query is made and, for `i_image in range(batch_size)`,
the reversed gradient of global image `i_batch * batch_size + i_image` is
added.  `g i` abstracts the patch-space contribution of image `i` (the
composite of the loss gradient and `_reverse_transformation`), living in any
additive commutative monoid standing for patch-shaped arrays. -/
def patch_gradients_sum {M : Type} [AddCommMonoid M] (g : ℕ → M)
    (n batchSize : ℕ) : M :=
  (List.range (num_batches n batchSize)).foldl
    (fun acc iBatch =>
      (List.range batchSize).foldl
        (fun acc2 iImage => acc2 + g (iBatch * batchSize + iImage)) acc)
    0

theorem foldl_add_range {M : Type} [AddCommMonoid M] (f : ℕ → M) (k : ℕ)
    (a : M) :
    (List.range k).foldl (fun acc i => acc + f i) a
      = a + ∑ i ∈ Finset.range k, f i := by
  induction k with
  | zero => simp
  | succ k ih =>
    rw [List.range_succ, List.foldl_append, ih, Finset.sum_range_succ]
    simp [add_assoc]

theorem sum_range_split {M : Type} [AddCommMonoid M] (f : ℕ → M) (a c : ℕ) :
    ∑ i ∈ Finset.range (a + c), f i
      = (∑ i ∈ Finset.range a, f i) + ∑ j ∈ Finset.range c, f (a + j) := by
  induction c with
  | zero => simp
  | succ c ih =>
    rw [Nat.add_succ, Finset.sum_range_succ, ih, Finset.sum_range_succ, add_assoc]

/-- C5: with a positive batch size, one iteration makes exactly
`⌊n / batch_size⌋` full-batch gradient queries and the accumulated patch
gradient is exactly the sum of the contributions of the first
`⌊n / batch_size⌋ * batch_size` images — the `n mod batch_size` remainder
images contribute nothing. -/
theorem patch_gradients_full_batches {M : Type} [AddCommMonoid M]
    (g : ℕ → M) (n b : ℕ) (hb : 0 < b) :
    patch_gradients_sum g n b = ∑ i ∈ Finset.range (num_batches n b * b), g i
      ∧ num_batches n b * b + n % b = n := by
  constructor
  · unfold patch_gradients_sum
    have hinner : ∀ (acc : M) (iBatch : ℕ),
        (List.range b).foldl (fun acc2 iImage => acc2 + g (iBatch * b + iImage)) acc
          = acc + ∑ j ∈ Finset.range b, g (iBatch * b + j) := by
      intro acc iBatch
      exact foldl_add_range (fun j => g (iBatch * b + j)) b acc
    calc (List.range (num_batches n b)).foldl
          (fun acc iBatch =>
            (List.range b).foldl
              (fun acc2 iImage => acc2 + g (iBatch * b + iImage)) acc) 0
        = (List.range (num_batches n b)).foldl
            (fun acc iBatch => acc + ∑ j ∈ Finset.range b, g (iBatch * b + j)) 0 := by
          congr 1
          funext acc iBatch
          exact hinner acc iBatch
      _ = 0 + ∑ iBatch ∈ Finset.range (num_batches n b),
            ∑ j ∈ Finset.range b, g (iBatch * b + j) :=
          foldl_add_range _ _ 0
      _ = ∑ i ∈ Finset.range (num_batches n b * b), g i := by
          rw [zero_add]
          induction (num_batches n b) with
          | zero => simp
          | succ m ih =>
            rw [Finset.sum_range_succ, ih, Nat.succ_mul, sum_range_split]
  · unfold num_batches
    rw [Nat.mul_comm]
    exact Nat.div_add_mod n b

/-- Witness for C5: 7 images with batch size 2 make 3 full batches; images 6
(and beyond) are dropped from the accumulation. -/
theorem patch_gradients_full_batches_witness :
    0 < 2
    ∧ (patch_gradients_sum (fun i => (i : ℤ)) 7 2
        = ∑ i ∈ Finset.range (num_batches 7 2 * 2), (i : ℤ)
      ∧ num_batches 7 2 * 2 + 7 % 2 = 7) :=
  ⟨by decide, patch_gradients_full_batches (fun i => (i : ℤ)) 7 2 (by decide)⟩

/-- The update of one optimizer iteration (lines 169-170):
`self.patch -= patch_gradients * self.learning_rate` followed by the
elementwise `np.clip(self.patch, clip_values[0], clip_values[1])`. -/
def generate_step (clipMin clipMax learningRate : ℚ)
    (patch grads : List ℚ) : List ℚ :=
  (patch.zipWith (fun p g => p - g * learningRate) grads).map
    (npClip clipMin clipMax)

/-- The iteration structure of `generate` (lines 148-170), with the
accumulated gradient of iteration `t` abstracted as `grads t`. -/
def generate_loop (clipMin clipMax learningRate : ℚ) (grads : ℕ → List ℚ)
    (patch0 : List ℚ) : ℕ → List ℚ
  | 0 => patch0
  | t + 1 =>
      generate_step clipMin clipMax learningRate
        (generate_loop clipMin clipMax learningRate grads patch0 t) (grads t)

/-- C6: after every optimizer iteration (gradient update then clip), every
element of the patch lies in the classifier's valid range
`[clip_min, clip_max]`. -/
theorem generate_loop_clipped (clipMin clipMax learningRate : ℚ)
    (grads : ℕ → List ℚ) (patch0 : List ℚ) (t : ℕ) (v : ℚ)
    (hcl : clipMin ≤ clipMax) (ht : 0 < t)
    (hv : v ∈ generate_loop clipMin clipMax learningRate grads patch0 t) :
    clipMin ≤ v ∧ v ≤ clipMax := by
  cases t with
  | zero => omega
  | succ t =>
    unfold generate_loop generate_step at hv
    obtain ⟨u, _, hu⟩ := List.mem_map.mp hv
    rw [← hu]
    exact npClip_mem clipMin clipMax u hcl

/-- Witness for C6: one iteration from initial patch `[2]`, gradient `[1]`,
learning rate 1 and range `[0, 1]` yields the clipped value 1. -/
theorem generate_loop_clipped_witness :
    ((0 : ℚ) ≤ 1 ∧ 0 < 1
      ∧ (1 : ℚ) ∈ generate_loop 0 1 1 (fun _ => [1]) [2] 1)
    ∧ ((0 : ℚ) ≤ 1 ∧ (1 : ℚ) ≤ 1) :=
  ⟨⟨by norm_num, by norm_num,
    by norm_num [generate_loop, generate_step, npClip]⟩,
   generate_loop_clipped 0 1 1 (fun _ => [1]) [2] 1 1 (by norm_num) (by norm_num)
     (by norm_num [generate_loop, generate_step, npClip])⟩

end ArtSpec
